import Mathlib

/-!
Verification of the SSE stream decoding and entity-state merge logic of the
vector-loader-automation repository.

The embedded code comes from:
* `src/unnamed/part_006` — `handleIngestion`: the `indexOf("\n\n")` buffer loop,
  the per-message `data: ` handling, the per-file merge, the catch handler that
  marks pending files failed, and the render-time status counts;
* `src/frontend/components/file-processing.tsx` — `processFiles`: the
  regex-based SSE block extraction, the local try/catch around `JSON.parse`,
  the id extraction `payload.fileId ?? payload.file_id ?? null`, the merge and
  the derived progress `(processedSoFar / Math.max(1, selectedFiles.length)) * 100`;
* `src/unnamed/part_002` — `startProcessing`: the `!f.processed`-guarded merge
  and the end-of-stream progress publication that uses the local
  `processedCount` variable (initialised to 0 and never incremented);
* `src/unnamed/part_005` — the pass-start reset to `pending`.

JavaScript values carried in event payloads are modelled by the `Json`
inductive; `undefined` is modelled by `Option.none` on fields, JS `null` by
`Json.null`.  Numbers are modelled by `Int` (all payload numbers relevant to
the claims are integers), and the float progress arithmetic by `Rat`.
-/

/-- JSON values as produced by `JSON.parse`. -/
inductive Json where
  | null : Json
  | bool : Bool → Json
  | num : Int → Json
  | str : String → Json
  | arr : List Json → Json
  | obj : List (String × Json) → Json

/-- Property lookup `j[k]` as JS reads it: a field of an object, `undefined`
(`none`) on any non-object or missing key. -/
def lookupField : List (String × Json) → String → Option Json
  | [], _ => none
  | (k', v) :: rest, k => if k' = k then some v else lookupField rest k

/-- JS property access `payload.k`: `none` models `undefined`. -/
def Json.get : Json → String → Option Json
  | .obj fs, k => lookupField fs k
  | _, _ => none

/-- JS nullish test: collapses a present-but-`null` field to `none`, so that
`a ?? b` is modelled by `nullish a` followed by `Option.orElse`. -/
def nullish : Option Json → Option Json
  | some .null => none
  | o => o

/-- The JS `??` operator on (possibly undefined) values. -/
def jsCoalesce (a b : Option Json) : Option Json :=
  match nullish a with
  | some v => some v
  | none => nullish b

/-- JS falsiness of a defined value: `null`, `false`, `0`, `""` are falsy. -/
def Json.falsy : Json → Bool
  | .null => true
  | .bool b => !b
  | .num n => n = 0
  | .str s => s = ""
  | _ => false

/-- JS falsiness of a possibly-undefined value (`!x`). -/
def jsFalsy : Option Json → Bool
  | none => true
  | some v => v.falsy

/-- JS `x || undefined`: keep a truthy value, drop a falsy one. -/
def jsTruthyOr : Option Json → Option Json
  | none => none
  | some v => if v.falsy then none else some v

/-- JS strict equality `s === j` between a string and a payload value:
true only when the value is the same string. -/
def jsonEqStr : Option Json → String → Bool
  | some (.str t), s => t = s
  | _, _ => false

/-- Projection used in statements: the value when it is a string. -/
def asString : Option Json → Option String
  | some (.str s) => some s
  | _ => none

/-- Replace (or add) one field of an object; identity on non-objects. -/
def setFieldList : List (String × Json) → String → Json → List (String × Json)
  | [], k, v => [(k, v)]
  | (k', v') :: rest, k, v =>
      if k' = k then (k, v) :: rest else (k', v') :: setFieldList rest k v

/-- Object update used to state that a payload field does not influence a
result: identity on non-objects, field replacement on objects. -/
def Json.setField : Json → String → Json → Json
  | .obj fs, k, v => .obj (setFieldList fs k v)
  | j, _, _ => j

theorem lookupField_setFieldList (fs : List (String × Json)) (k k' : String)
    (v : Json) (h : k ≠ k') : lookupField (setFieldList fs k v) k' = lookupField fs k' := by
  induction fs with
  | nil => simp [setFieldList, lookupField, h]
  | cons p rest ih =>
      obtain ⟨k₀, v₀⟩ := p
      by_cases hk : k₀ = k
      · subst hk
        simp [setFieldList, lookupField, h]
      · by_cases hk' : k₀ = k' <;>
          simp [setFieldList, hk, lookupField, hk', ih, Ne.symm h]

theorem get_setField (p : Json) (k k' : String) (v : Json) (h : k ≠ k') :
    (p.setField k v).get k' = p.get k' := by
  cases p <;> simp [Json.setField, Json.get]
  exact lookupField_setFieldList _ _ _ _ h

/-! ### A model of `JSON.parse`

`JSON.parse` either returns a value or throws; the model returns `Option Json`
(`none` models the thrown `SyntaxError`).  The grammar covers objects, arrays,
strings (with the common escapes), integer numbers, booleans and `null`, which
is the shape of every payload the upstream emits. -/

/-- JSON insignificant whitespace. -/
def jsonWs (c : Char) : Bool :=
  c = ' ' || c = '\t' || c = '\n' || c = '\r'

/-- Skip insignificant whitespace. -/
def skipJsonWs : List Char → List Char
  | [] => []
  | c :: rest => if jsonWs c then skipJsonWs rest else c :: rest

/-- The opening brace character (code point 123). -/
def lbrace : Char := Char.ofNat 123

/-- The closing brace character (code point 125). -/
def rbrace : Char := Char.ofNat 125

/-- Accumulate decimal digits. -/
def digitsGo : List Char → Nat → Nat × List Char
  | [], n => (n, [])
  | c :: rest, n =>
      if c.isDigit then digitsGo rest (n * 10 + (c.toNat - 48)) else (n, c :: rest)

/-- Parse at least one decimal digit. -/
def parseDigits : List Char → Option (Nat × List Char)
  | [] => none
  | c :: rest => if c.isDigit then some (digitsGo rest (c.toNat - 48)) else none

/-- Body of a string literal, after the opening quote. -/
def stringBody : List Char → List Char → Option (String × List Char)
  | [], _ => none
  | '"' :: rest, acc => some (String.mk acc.reverse, rest)
  | '\\' :: e :: rest, acc =>
      if e = '"' || e = '\\' || e = '/' then stringBody rest (e :: acc)
      else if e = 'n' then stringBody rest ('\n' :: acc)
      else if e = 't' then stringBody rest ('\t' :: acc)
      else if e = 'r' then stringBody rest ('\r' :: acc)
      else none
  | ['\\'], _ => none
  | c :: rest, acc => stringBody rest (c :: acc)

mutual

/-- Parse one JSON value (fuelled; the fuel only bounds nesting and member
counts and is ample at `length + 1`). -/
def parseVal : Nat → List Char → Option (Json × List Char)
  | 0, _ => none
  | fuel + 1, l =>
      match skipJsonWs l with
      | [] => none
      | c :: rest =>
          if c = '"' then
            match stringBody rest [] with
            | some (s, r) => some (.str s, r)
            | none => none
          else if c = 't' then
            if "rue".toList.isPrefixOf rest then some (.bool true, rest.drop 3) else none
          else if c = 'f' then
            if "alse".toList.isPrefixOf rest then some (.bool false, rest.drop 4) else none
          else if c = 'n' then
            if "ull".toList.isPrefixOf rest then some (.null, rest.drop 3) else none
          else if c = '-' then
            match parseDigits rest with
            | some (n, r) => some (.num (-(n : Int)), r)
            | none => none
          else if c.isDigit then
            match parseDigits (c :: rest) with
            | some (n, r) => some (.num (n : Int), r)
            | none => none
          else if c = lbrace then
            match skipJsonWs rest with
            | c' :: r' =>
                if c' = rbrace then some (.obj [], r')
                else objMembers fuel (c' :: r') []
            | [] => none
          else if c = '[' then
            match skipJsonWs rest with
            | ']' :: r' => some (.arr [], r')
            | r' => arrMembers fuel r' []
          else none

/-- Parse the members of an object after the opening brace. -/
def objMembers : Nat → List Char → List (String × Json) → Option (Json × List Char)
  | 0, _, _ => none
  | fuel + 1, l, acc =>
      match l with
      | '"' :: rest =>
          match stringBody rest [] with
          | none => none
          | some (k, r1) =>
              match skipJsonWs r1 with
              | ':' :: r2 =>
                  match parseVal fuel r2 with
                  | none => none
                  | some (v, r3) =>
                      match skipJsonWs r3 with
                      | ',' :: r4 => objMembers fuel (skipJsonWs r4) (acc ++ [(k, v)])
                      | c :: r4 =>
                          if c = rbrace then some (.obj (acc ++ [(k, v)]), r4) else none
                      | [] => none
              | _ => none
      | _ => none

/-- Parse the elements of an array after the opening bracket. -/
def arrMembers : Nat → List Char → List Json → Option (Json × List Char)
  | 0, _, _ => none
  | fuel + 1, l, acc =>
      match parseVal fuel l with
      | none => none
      | some (v, r1) =>
          match skipJsonWs r1 with
          | ',' :: r2 => arrMembers fuel r2 (acc ++ [v])
          | ']' :: r2 => some (.arr (acc ++ [v]), r2)
          | _ => none

end

/-- `JSON.parse`: a whole input parses to exactly one value; `none` models the
thrown `SyntaxError`. -/
def jsonParse (l : List Char) : Option Json :=
  match parseVal (l.length + 1) l with
  | some (v, rest) => if skipJsonWs rest = [] then some v else none
  | none => none

/-! ### Frame extraction in `handleIngestion` (src/unnamed/part_006, lines 111-148)

The stream loop appends each chunk to `buffer`, then repeatedly looks up
`buffer.indexOf("\n\n")`, emits `buffer.substring(0, boundary)` as one message
and continues with `buffer.substring(boundary + 2)` until no boundary is left.
Strings are modelled as `List Char`. -/

/-- `buffer.indexOf("\n\n")`: position of the first two consecutive newlines. -/
def findBoundary : List Char → Option Nat
  | [] => none
  | [_] => none
  | c₁ :: c₂ :: rest =>
      if c₁ = '\n' && c₂ = '\n' then some 0
      else (findBoundary (c₂ :: rest)).map (· + 1)

/-- The inner `while (boundary !== -1)` loop: emit complete messages, keep the
trailing partial message.  Fuelled; `drain` supplies ample fuel. -/
def drainGo : Nat → List Char → List (List Char) × List Char
  | 0, b => ([], b)
  | fuel + 1, b =>
      match findBoundary b with
      | none => ([], b)
      | some i =>
          let message := b.take i
          let out := drainGo fuel (b.drop (i + 2))
          (message :: out.1, out.2)

/-- Process one buffer completely: all complete messages plus the retained
trailing partial message. -/
def drain (b : List Char) : List (List Char) × List Char :=
  drainGo b.length b

/-- Feed chunks one at a time through the extraction loop, threading the
buffer, and collect the messages in order. -/
def feedGo : List (List Char) → List Char → List (List Char) × List Char
  | [], buf => ([], buf)
  | ch :: cs, buf =>
      let out := drain (buf ++ ch)
      let rest := feedGo cs out.2
      (out.1 ++ rest.1, rest.2)

/-- The whole run of the extraction loop, starting from the empty buffer. -/
def feedChunks (cs : List (List Char)) : List (List Char) × List Char :=
  feedGo cs []

theorem findBoundary_le {b : List Char} {i : Nat} (h : findBoundary b = some i) :
    i + 2 ≤ b.length := by
  induction b generalizing i with
  | nil => simp [findBoundary] at h
  | cons c₁ tl ih =>
      cases tl with
      | nil => simp [findBoundary] at h
      | cons c₂ rest =>
          rw [findBoundary] at h
          by_cases hb : c₁ = '\n' && c₂ = '\n'
          · simp [hb] at h
            simp [List.length_cons]
            omega
          · simp [hb] at h
            obtain ⟨j, hj, hji⟩ := h
            have hle := ih hj
            simp [List.length_cons] at hle ⊢
            omega

theorem findBoundary_append {b : List Char} {i : Nat} (c : List Char)
    (h : findBoundary b = some i) : findBoundary (b ++ c) = some i := by
  induction b generalizing i with
  | nil => simp [findBoundary] at h
  | cons c₁ tl ih =>
      cases tl with
      | nil => simp [findBoundary] at h
      | cons c₂ rest =>
          rw [findBoundary] at h
          by_cases hb : c₁ = '\n' && c₂ = '\n'
          · simp [hb] at h
            simp [findBoundary, hb, ← h]
          · simp [hb] at h
            obtain ⟨j, hj, hji⟩ := h
            have := ih hj
            simp only [List.cons_append, findBoundary, hb, if_false]
            rw [List.cons_append] at this
            simp [this, hji]

theorem drainGo_fuel : ∀ (fuel fuel' : Nat) (b : List Char),
    b.length ≤ fuel → b.length ≤ fuel' → drainGo fuel b = drainGo fuel' b := by
  intro fuel
  induction fuel with
  | zero =>
      intro fuel' b hb _
      have : b = [] := List.eq_nil_of_length_eq_zero (Nat.le_zero.mp hb)
      subst this
      cases fuel' <;> simp [drainGo, findBoundary]
  | succ k ih =>
      intro fuel' b hb hb'
      cases fuel' with
      | zero =>
          have : b = [] := List.eq_nil_of_length_eq_zero (Nat.le_zero.mp hb')
          subst this
          simp [drainGo, findBoundary]
      | succ m =>
          rw [drainGo, drainGo]
          cases hf : findBoundary b with
          | none => rfl
          | some i =>
              have hi := findBoundary_le hf
              have hlen : (b.drop (i + 2)).length ≤ k := by
                simp [List.length_drop]
                omega
              have hlen' : (b.drop (i + 2)).length ≤ m := by
                simp [List.length_drop]
                omega
              simp only
              rw [ih m _ hlen hlen']

theorem drain_none {b : List Char} (h : findBoundary b = none) :
    drain b = ([], b) := by
  rw [drain]
  cases hl : b.length with
  | zero => simp [drainGo]
  | succ m => simp [drainGo, h]

theorem drain_some {b : List Char} {i : Nat} (h : findBoundary b = some i) :
    drain b = (b.take i :: (drain (b.drop (i + 2))).1, (drain (b.drop (i + 2))).2) := by
  have hi := findBoundary_le h
  rw [drain]
  cases hl : b.length with
  | zero =>
      exfalso
      omega
  | succ m =>
      rw [drainGo]
      simp only [h]
      have : drainGo m (b.drop (i + 2)) = drain (b.drop (i + 2)) := by
        rw [drain]
        apply drainGo_fuel
        · simp [List.length_drop]
          omega
        · exact le_refl _
      rw [this]

theorem findBoundary_drain_residue : ∀ (n : Nat) (b : List Char), b.length ≤ n →
    findBoundary (drain b).2 = none := by
  intro n
  induction n with
  | zero =>
      intro b hb
      have : b = [] := List.eq_nil_of_length_eq_zero (Nat.le_zero.mp hb)
      subst this
      simp [drain_none (by simp [findBoundary] : findBoundary ([] : List Char) = none),
        findBoundary]
  | succ k ih =>
      intro b hb
      cases hf : findBoundary b with
      | none => simp [drain_none hf, hf]
      | some i =>
          have hi := findBoundary_le hf
          rw [drain_some hf]
          apply ih
          simp [List.length_drop]
          omega

theorem drain_append : ∀ (n : Nat) (b c : List Char), b.length ≤ n →
    drain (b ++ c) =
      ((drain b).1 ++ (drain ((drain b).2 ++ c)).1, (drain ((drain b).2 ++ c)).2) := by
  intro n
  induction n with
  | zero =>
      intro b c hb
      have : b = [] := List.eq_nil_of_length_eq_zero (Nat.le_zero.mp hb)
      subst this
      simp [drain_none (by simp [findBoundary] : findBoundary ([] : List Char) = none)]
  | succ k ih =>
      intro b c hb
      cases hf : findBoundary b with
      | none =>
          rw [drain_none hf]
          simp
      | some i =>
          have hi := findBoundary_le hf
          have hfa := findBoundary_append c hf
          rw [drain_some hf, drain_some hfa]
          have htake : (b ++ c).take i = b.take i := by
            rw [List.take_append_of_le_length]
            omega
          have hdrop : (b ++ c).drop (i + 2) = b.drop (i + 2) ++ c := by
            rw [List.drop_append_of_le_length]
            omega
          rw [htake, hdrop]
          have hlen : (b.drop (i + 2)).length ≤ k := by
            simp [List.length_drop]
            omega
          rw [ih _ c hlen]
          simp

theorem feedGo_drain : ∀ (cs : List (List Char)) (buf : List Char),
    findBoundary buf = none → feedGo cs buf = drain (buf ++ cs.flatten) := by
  intro cs
  induction cs with
  | nil =>
      intro buf hb
      simp [feedGo, drain_none hb]
  | cons ch cs ih =>
      intro buf hb
      rw [feedGo]
      have hres := findBoundary_drain_residue (buf ++ ch).length (buf ++ ch) (le_refl _)
      rw [ih _ hres]
      rw [List.flatten_cons, ← List.append_assoc]
      rw [drain_append (buf ++ ch).length (buf ++ ch) cs.flatten (le_refl _)]

/-! ### Frame extraction in `processFiles`
(src/frontend/components/file-processing.tsx, lines 109-180; identical loop in
src/unnamed/part_002, lines 126-138)

The loop matches `/(?:^|\n)data:\s*((?:.|\n)*?)(?=\n\n|$)/g` repeatedly against
the buffer, collects `match[1].trim()` for each match, remembers
`dataBlockRegex.lastIndex` after the last successful match, and keeps
`buffer.slice(lastIndex)` for the next chunk.  Because the lazy capture
followed by the `(?=\n\n|$)` lookahead always succeeds once `data:` has been
matched, the regex engine's behaviour is deterministic and is modelled
directly: greedy `\s*`, then the shortest capture ending before `"\n\n"` or at
the end of the buffer. -/

/-- JS regex `\s` on the ASCII range. -/
def jsRegexWs (c : Char) : Bool :=
  c = ' ' || c = '\t' || c = '\n' || c = '\r' || c = '\x0b' || c = '\x0c'

/-- Greedy `\s*`: number of leading whitespace characters and the rest. -/
def skipWsCount : List Char → Nat × List Char
  | [] => (0, [])
  | c :: rest =>
      if jsRegexWs c then
        let out := skipWsCount rest
        (out.1 + 1, out.2)
      else (0, c :: rest)

/-- Lazy `((?:.|\n)*?)(?=\n\n|$)`: the shortest prefix whose end is followed by
two newlines or is the end of the buffer. -/
def lazyCapture : List Char → List Char
  | [] => []
  | '\n' :: '\n' :: _ => []
  | c :: rest => c :: lazyCapture rest

/-- `"data:"` as a character list. -/
def dataColon : List Char := "data:".toList

/-- One `dataBlockRegex.exec(buffer)` from absolute position `pos` (the list is
the buffer suffix starting at `pos`): on success, the capture group and the new
`lastIndex` (the end of the whole match; the lookahead consumes nothing). -/
def regexExec : List Char → Nat → Option (List Char × Nat)
  | [], _ => none
  | l@(c :: rest), pos =>
      if pos = 0 && dataColon.isPrefixOf l then
        let after := l.drop 5
        let ws := skipWsCount after
        let cap := lazyCapture ws.2
        some (cap, pos + 5 + ws.1 + cap.length)
      else if c = '\n' && dataColon.isPrefixOf rest then
        let after := rest.drop 5
        let ws := skipWsCount after
        let cap := lazyCapture ws.2
        some (cap, pos + 1 + 5 + ws.1 + cap.length)
      else regexExec rest (pos + 1)

/-- `trim()` on a character list. -/
def trimChars (l : List Char) : List Char :=
  ((l.dropWhile jsRegexWs).reverse.dropWhile jsRegexWs).reverse

/-- The inner `while ((match = dataBlockRegex.exec(buffer)) !== null)` loop:
collect the trimmed captures and return the final `lastIndex`. -/
def regexLoopGo : Nat → List Char → Nat → List (List Char) × Nat
  | 0, _, li => ([], li)
  | fuel + 1, buffer, li =>
      match regexExec (buffer.drop li) li with
      | none => ([], li)
      | some (cap, li') =>
          let out := regexLoopGo fuel buffer li'
          (trimChars cap :: out.1, out.2)

/-- One chunk iteration of the `processFiles` stream loop: match all blocks,
then keep `buffer.slice(lastIndex)`. -/
def regexChunkStep (buffer : List Char) : List (List Char) × List Char :=
  let out := regexLoopGo buffer.length buffer 0
  (out.1, buffer.drop out.2)

/-- The whole `processFiles` extraction run over a list of chunks. -/
def regexFeed : List (List Char) → List Char → List (List Char) × List Char
  | [], buf => ([], buf)
  | ch :: cs, buf =>
      let out := regexChunkStep (buf ++ ch)
      let rest := regexFeed cs out.2
      (out.1 ++ rest.1, rest.2)

/-! ### Entity state and the `handleIngestion` loop (src/unnamed/part_006)

`FileData` fields relevant to ingestion.  `ingestionStatus`, `ingestionDetails`
and `error` hold whatever the events delivered (`none` models `undefined`,
`some Json.null` a JS `null`). -/

structure IngFile where
  id : String
  selected : Bool
  processed : Bool
  ingestionStatus : Option Json
  ingestionDetails : Option Json
  error : Option Json

/-- `f.ingestionStatus === s` for a string literal `s`. -/
def IngFile.statusIs (f : IngFile) (s : String) : Bool :=
  jsonEqStr f.ingestionStatus s

/-- The component state touched by `handleIngestion`: the files array, the
progress value last passed to `setProgress` (`none` when the code passed
`undefined`), and `apiError`. -/
structure IngState where
  files : List IngFile
  progress : Option Json
  apiError : Option String

/-- The `setFiles` updater run for one received event (part_006, lines
133-144): the file whose id strictly equals `result.fileId` takes the event's
`status`, `ingestionDetails` and `error || undefined`; every other file is
returned unchanged. -/
def ingestMergeFile (result : Json) (f : IngFile) : IngFile :=
  if jsonEqStr (result.get "fileId") f.id then
    { f with ingestionStatus := result.get "status",
             ingestionDetails := result.get "ingestionDetails",
             error := jsTruthyOr (result.get "error") }
  else f

/-- Handling of one successfully parsed `data: ` event (part_006, lines
130-145): merge into the files array, then `setProgress(result.progress)`. -/
def ingestDataStep (result : Json) (s : IngState) : IngState :=
  { files := s.files.map (ingestMergeFile result),
    progress := result.get "progress",
    apiError := s.apiError }

/-- Handling of one complete message (part_006, lines 126-146): only messages
starting with `"data: "` are examined; `JSON.parse` of the rest may throw
(modelled by `Except.error`), which escapes the loop. -/
def processIngMessage (message : List Char) (s : IngState) :
    Except String IngState :=
  if "data: ".toList.isPrefixOf message then
    match jsonParse (message.drop 6) with
    | none => .error "Unexpected token in JSON"
    | some result => .ok (ingestDataStep result s)
  else .ok s

/-- The inner boundary loop of `handleIngestion` (lines 121-148), fuelled like
`drainGo`: split off complete messages and process each in turn; an exception
carries the state reached so far. -/
def ingBufferGo : Nat → List Char → IngState →
    Except (String × IngState) (List Char × IngState)
  | 0, buffer, s => .ok (buffer, s)
  | fuel + 1, buffer, s =>
      match findBoundary buffer with
      | none => .ok (buffer, s)
      | some i =>
          let message := buffer.take i
          let rest := buffer.drop (i + 2)
          match processIngMessage message s with
          | .error e => .error (e, s)
          | .ok s' => ingBufferGo fuel rest s'

/-- The `catch` handler of `handleIngestion` (lines 150-165) applied to one
file: a file whose status is `"pending"` is marked failed with the generic
connection-error message; all other files are left as they are. -/
def ingestCatchFile (f : IngFile) : IngFile :=
  if f.statusIs "pending" then
    { f with ingestionStatus := some (Json.str "failed"),
             error := some (Json.str "Connection error during ingestion.") }
  else f

/-- The whole `catch` handler: `setApiError` once, then the pending-to-failed
sweep over every file. -/
def ingestCatch (e : String) (s : IngState) : IngState :=
  { files := s.files.map ingestCatchFile,
    progress := s.progress,
    apiError := some e }

/-- The read loop of `handleIngestion`: each chunk is appended to the buffer
and drained; a thrown parse error aborts the loop into the `catch` handler.
Normal exhaustion of the chunks models `done` ending the stream. -/
def ingestLoopGo : List (List Char) → List Char → IngState → IngState
  | [], _, s => s
  | ch :: cs, buffer, s =>
      let buf := buffer ++ ch
      match ingBufferGo buf.length buf s with
      | .error (e, s') => ingestCatch e s'
      | .ok (buf', s') => ingestLoopGo cs buf' s'

/-- The pass-start reset (part_006, lines 71-82): every file belonging to the
pass is set to `pending` with cleared details and error. -/
def startPassFile (tracked : List String) (f : IngFile) : IngFile :=
  if tracked.contains f.id then
    { f with ingestionStatus := some (Json.str "pending"),
             ingestionDetails := some Json.null,
             error := none }
  else f

/-- `setFiles` at pass start for the tracked ids. -/
def startPassFiles (tracked : List String) (files : List IngFile) : List IngFile :=
  files.map (startPassFile tracked)

/-! ### The render-time aggregate counts (part_006, lines 62 and 237-245) -/

/-- `selectedFiles`: the tracked set shown by the ingestion step. -/
def selectedFilesOf (files : List IngFile) : List IngFile :=
  files.filter (fun f => f.selected && f.processed)

/-- `successCount`. -/
def successCount (files : List IngFile) : Nat :=
  ((selectedFilesOf files).filter (fun f => f.statusIs "success")).length

/-- `failedCount`. -/
def failedCount (files : List IngFile) : Nat :=
  ((selectedFilesOf files).filter (fun f => f.statusIs "failed")).length

/-- `pendingCount`. -/
def pendingCount (files : List IngFile) : Nat :=
  ((selectedFilesOf files).filter (fun f => f.statusIs "pending")).length

/-- The tracked total: `selectedFiles.length`. -/
def totalTracked (files : List IngFile) : Nat :=
  (selectedFilesOf files).length

/-- Tracked files counted by none of the three status buckets. -/
def unassignedCount (files : List IngFile) : Nat :=
  ((selectedFilesOf files).filter
    (fun f => !(f.statusIs "pending" || f.statusIs "success" || f.statusIs "failed"))).length

/-- Status of the file with the given id, as a string. -/
def statusOf (files : List IngFile) (id : String) : Option String :=
  match files.find? (fun f => f.id = id) with
  | some f => asString f.ingestionStatus
  | none => none

/-- Error field of the file with the given id, as a string. -/
def errorOf (files : List IngFile) (id : String) : Option String :=
  match files.find? (fun f => f.id = id) with
  | some f => asString f.error
  | none => none

/-! ### Entity state and the merge in `processFiles`
(src/frontend/components/file-processing.tsx, lines 105-190) -/

structure ProcFile where
  id : String
  selected : Bool
  processed : Bool
  qualityMetrics : Option Int
  analysis : Option Json
  error : Option Json

/-- Component state touched by the processing loop: the files array, the
progress last passed to `setProgress` and `processedFileCount`. -/
structure ProcState where
  files : List ProcFile
  progress : Rat
  processedFileCount : Nat

/-- `const fileId = payload.fileId ?? payload.file_id ?? null` (line 127). -/
def extractFileId (payload : Json) : Option Json :=
  jsCoalesce (payload.get "fileId") (payload.get "file_id")

/-- Lines 133-140: `let analysis = payload.analysis ?? null`, replaced by
`analysis.json` when `analysis` is a truthy object carrying a `json` key. -/
def extractAnalysis (payload : Json) : Option Json :=
  match nullish (payload.get "analysis") with
  | some (Json.obj fs) =>
      match lookupField fs "json" with
      | some v => nullish (some v)
      | none => some (Json.obj fs)
  | other => other

/-- `(analysis && (analysis.quality_score ?? analysis.quality)) ?? undefined`
(lines 145-148). -/
def parseAccuracyOf (analysis : Option Json) : Option Json :=
  match analysis with
  | none => none
  | some v =>
      if v.falsy then nullish (some v)
      else jsCoalesce (v.get "quality_score") (v.get "quality")

/-- `typeof parseAccuracy === "number" ? { parseAccuracy } : undefined`
(lines 149-152). -/
def qualityMetricsOf (parseAccuracy : Option Json) : Option Int :=
  match parseAccuracy with
  | some (.num n) => some n
  | _ => none

/-- `analysis ?? payload.analysis ?? payload` (line 158). -/
def storedAnalysis (payload : Json) (analysis : Option Json) : Option Json :=
  match analysis with
  | some v => some v
  | none =>
      match nullish (payload.get "analysis") with
      | some v => some v
      | none => some payload

/-- The function mapped over `prevFiles` (lines 143-163): the file whose id
strictly equals `fileId` is marked processed and takes the derived quality
metrics, analysis and `payload.error ?? undefined`. -/
def updateProcFile (payload : Json) (fileId : Option Json) (analysis : Option Json)
    (f : ProcFile) : ProcFile :=
  if jsonEqStr fileId f.id then
    { f with processed := true,
             qualityMetrics := qualityMetricsOf (parseAccuracyOf analysis),
             analysis := storedAnalysis payload analysis,
             error := nullish (payload.get "error") }
  else f

/-- Handling of one parsed payload (lines 124-174): skip when the id is falsy,
otherwise merge and publish `(processedSoFar / Math.max(1, selectedFiles.length))
* 100`.  `total` is the captured `selectedFiles.length`. -/
def procPayloadStep (payload : Json) (total : Nat) (st : ProcState) : ProcState :=
  let fileId := extractFileId payload
  if jsFalsy fileId then st
  else
    let analysis := extractAnalysis payload
    let updated := st.files.map (updateProcFile payload fileId analysis)
    let processedSoFar := (updated.filter (fun f => f.selected && f.processed)).length
    { files := updated,
      progress := (processedSoFar : Rat) / ((max 1 total : Nat) : Rat) * 100,
      processedFileCount := processedSoFar }

/-- Handling of one raw block (lines 123-177): `JSON.parse` failures are caught
locally and the state is left untouched. -/
def procRawStep (rawData : List Char) (total : Nat) (st : ProcState) : ProcState :=
  match jsonParse rawData with
  | none => st
  | some payload => procPayloadStep payload total st

/-- The per-chunk frame loop of `processFiles` over already-extracted blocks. -/
def procFrames (frames : List (List Char)) (total : Nat) (st : ProcState) : ProcState :=
  frames.foldl (fun s fr => procRawStep fr total s) st

/-! ### The guarded merge and final progress of `startProcessing`
(src/unnamed/part_002, lines 120-219) -/

/-- The map function of part_002 (lines 166-186): identical to the
`processFiles` merge except for the `&& !f.processed` guard. -/
def merge2File (payload : Json) (f : ProcFile) : ProcFile :=
  if jsonEqStr (extractFileId payload) f.id && !f.processed then
    { f with processed := true,
             qualityMetrics := qualityMetricsOf (parseAccuracyOf (extractAnalysis payload)),
             analysis := storedAnalysis payload (extractAnalysis payload),
             error := nullish (payload.get "error") }
  else f

/-- `setFiles` for one event in part_002. -/
def merge2Files (payload : Json) (files : List ProcFile) : List ProcFile :=
  files.map (merge2File payload)

/-- One parsed payload in part_002's loop (lines 141-197). -/
def part2PayloadStep (payload : Json) (total : Nat) (st : ProcState) : ProcState :=
  let fileId := extractFileId payload
  if jsFalsy fileId then st
  else
    let updated := merge2Files payload st.files
    let processedSoFar := (updated.filter (fun f => f.selected && f.processed)).length
    { files := updated,
      progress := (processedSoFar : Rat) / ((max 1 total : Nat) : Rat) * 100,
      processedFileCount := processedSoFar }

/-- One raw block in part_002's loop, threading the local `processedCount`
variable, which no statement of the loop ever updates. -/
def part2RawStep (rawData : List Char) (total : Nat) (sc : ProcState × Nat) :
    ProcState × Nat :=
  match jsonParse rawData with
  | none => sc
  | some payload => (part2PayloadStep payload total sc.1, sc.2)

/-- The end-of-stream publication of part_002 (lines 214-219):
`processedCount === selected.length ? 100 : (processedCount / Math.max(1,
selected.length)) * 100`. -/
def part2FinalProgress (processedCount selectedLen : Nat) : Rat :=
  if processedCount = selectedLen then 100
  else (processedCount : Rat) / ((max 1 selectedLen : Nat) : Rat) * 100

/-- part_002's whole stream run over extracted blocks: the loop starts with
`processedCount = 0` and ends by publishing the final progress. -/
def part2Run (frames : List (List Char)) (selectedLen : Nat) (st : ProcState) :
    ProcState :=
  let out := frames.foldl (fun sc fr => part2RawStep fr selectedLen sc) (st, 0)
  { out.1 with progress := part2FinalProgress out.2 selectedLen }

/-! ### Helper lemmas -/

theorem length_filter_map_congr {α : Type} (g₁ g₂ : α → α) (p : α → Bool)
    (h : ∀ x, p (g₁ x) = p (g₂ x)) (l : List α) :
    ((l.map g₁).filter p).length = ((l.map g₂).filter p).length := by
  induction l with
  | nil => rfl
  | cons x xs ih =>
      simp only [List.map_cons, List.filter_cons, h x]
      cases p (g₂ x) <;> simp [ih]

theorem length_filter_map_inv {α : Type} (g : α → α) (p : α → Bool)
    (h : ∀ x, p (g x) = p x) (l : List α) :
    ((l.map g).filter p).length = (l.filter p).length := by
  induction l with
  | nil => rfl
  | cons x xs ih =>
      simp only [List.map_cons, List.filter_cons, h x]
      cases p x <;> simp [ih]

theorem map_eq_self_of_fix {α : Type} (g : α → α) (l : List α)
    (h : ∀ x ∈ l, g x = x) : l.map g = l := by
  induction l with
  | nil => rfl
  | cons x xs ih =>
      simp only [List.map_cons, h x (by simp)]
      rw [ih (fun y hy => h y (by simp [hy]))]

/-! ### Claims -/

/-- Claim C1, amended part: chunk-boundary invariance holds for the
`indexOf("\n\n")` extraction loop of `handleIngestion` — for every byte stream
and every split of it into chunks, feeding the chunks one at a time yields
exactly the same ordered list of complete frames (and the same retained
trailing partial frame) as feeding the whole stream as one chunk; hence no
partial trailing frame is emitted early and no frame is emitted twice. -/
theorem c1_indexOf_loop_chunk_invariant (chunks : List (List Char)) :
    feedChunks chunks = drain chunks.flatten := by
  rw [feedChunks, feedGo_drain chunks [] (by simp [findBoundary])]
  simp

/-- Claim C1, counterexample: the regex-based extraction loop of
`processFiles` is not chunk-boundary invariant.  On the stream
`"data: AB\n\n"` split after `"data: A"`, the split feed emits the partial
trailing frame `"A"` early and loses the remainder, while the one-chunk feed
emits the complete frame `"AB"`. -/
theorem c1_regex_loop_counterexample :
    "data: A".toList ++ "B\n\n".toList = "data: AB\n\n".toList ∧
    (regexFeed ["data: A".toList, "B\n\n".toList] []).1 = ["A".toList] ∧
    (regexFeed ["data: AB\n\n".toList] []).1 = ["AB".toList] ∧
    (regexFeed ["data: A".toList, "B\n\n".toList] []).1 ≠
      (regexFeed ["data: AB\n\n".toList] []).1 :=
  ⟨by decide, by decide, by decide, by decide⟩

/-- Claim C9: in the ingestion stream loop of `handleIngestion`, a complete
frame whose text does not begin with `"data: "` (trailing space included)
changes no file record, does not change the published progress, raises no
error, and processing continues with the next frame. -/
theorem c9_nondata_frame_ignored (message : List Char) (s : IngState)
    (h : "data: ".toList.isPrefixOf message = false) :
    processIngMessage message s = .ok s := by
  simp only [processIngMessage]
  rw [if_neg]
  intro hp
  rw [h] at hp
  cases hp

/-- Witness for C9 at the concrete frame `"data:x"` (a `data:` line without
the space). -/
theorem c9_witness :
    ("data: ".toList.isPrefixOf "data:x".toList) = false ∧
    processIngMessage "data:x".toList ⟨[], some (Json.num 0), none⟩ =
      .ok ⟨[], some (Json.num 0), none⟩ :=
  ⟨by decide, c9_nondata_frame_ignored _ _ (by decide)⟩

/-- Claim C10: in the `processFiles` decoder, the entity id is taken from the
payload's `fileId` field when that field is non-nullish (even when it is the
empty string, in which case `file_id` is not consulted), otherwise from
`file_id`; when the chosen value is absent (or `null`) or the empty string the
frame is dropped and the state — files and published progress — is unchanged. -/
theorem c10_empty_id_dropped (p : Json) (total : Nat) (st : ProcState) :
    (p.get "fileId" = some (Json.str "") → extractFileId p = some (Json.str "")) ∧
    (p.get "fileId" = none → extractFileId p = nullish (p.get "file_id")) ∧
    (extractFileId p = none ∨ extractFileId p = some (Json.str "") →
      procPayloadStep p total st = st) := by
  refine ⟨?_, ?_, ?_⟩
  · intro h
    simp [extractFileId, jsCoalesce, h, nullish]
  · intro h
    simp [extractFileId, jsCoalesce, h, nullish]
  · intro h
    rcases h with h | h <;> simp [procPayloadStep, h, jsFalsy, Json.falsy]

/-- Payload whose `fileId` is present but empty while `file_id` carries a
plausible id. -/
def c10Payload : Json :=
  .obj [("fileId", .str ""), ("file_id", .str "B"), ("status", .str "success")]

/-- A one-file processing state used by concrete evaluations. -/
def c10State : ProcState := ⟨[⟨"B", true, false, none, none, none⟩], 0, 0⟩

/-- Witness for C10: a payload with `fileId: ""` (and a usable `file_id`) is
dropped without touching the state. -/
theorem c10_witness :
    c10Payload.get "fileId" = some (Json.str "") ∧
    extractFileId c10Payload = some (Json.str "") ∧
    procPayloadStep c10Payload 1 c10State = c10State :=
  ⟨rfl, (c10_empty_id_dropped c10Payload 1 c10State).1 rfl,
   (c10_empty_id_dropped c10Payload 1 c10State).2.2
     (Or.inr ((c10_empty_id_dropped c10Payload 1 c10State).1 rfl))⟩

/-- Claim C7: for every decoded event whose entity id matches no tracked file,
both merges (the ingestion merge of `handleIngestion` and the processing merge
of `processFiles`) are no-ops on the entity collection — no new entity is ever
created (the mapped list always keeps its length, so `totalTracked` cannot
change), and with an unknown id every existing record is returned unchanged. -/
theorem c7_unknown_id_noop (result : Json) (fs : List IngFile) (payload : Json)
    (ps : List ProcFile) :
    ((fs.map (ingestMergeFile result)).length = fs.length) ∧
    (totalTracked (fs.map (ingestMergeFile result)) = totalTracked fs) ∧
    ((∀ f ∈ fs, jsonEqStr (result.get "fileId") f.id = false) →
      fs.map (ingestMergeFile result) = fs) ∧
    ((ps.map (updateProcFile payload (extractFileId payload)
        (extractAnalysis payload))).length = ps.length) ∧
    ((∀ f ∈ ps, jsonEqStr (extractFileId payload) f.id = false) →
      ps.map (updateProcFile payload (extractFileId payload)
        (extractAnalysis payload)) = ps) := by
  refine ⟨by simp, ?_, ?_, by simp, ?_⟩
  · rw [totalTracked, totalTracked, selectedFilesOf, selectedFilesOf]
    apply length_filter_map_inv
    intro x
    by_cases hx : jsonEqStr (result.get "fileId") x.id = true <;>
      simp [ingestMergeFile, hx]
  · intro h
    apply map_eq_self_of_fix
    intro f hf
    simp [ingestMergeFile, h f hf]
  · intro h
    apply map_eq_self_of_fix
    intro f hf
    simp [updateProcFile, h f hf]

/-- A state with two tracked files neither of which matches the event id,
used by the C7 witness. -/
def c7Files : List IngFile :=
  [⟨"A", true, true, some (.str "pending"), none, none⟩,
   ⟨"B", true, true, some (.str "pending"), none, none⟩]

/-- An event for an id outside the tracked set. -/
def c7Event : Json := .obj [("fileId", .str "Z"), ("status", .str "success")]

/-- Witness for C7: the unknown-id event leaves both collections unchanged. -/
theorem c7_witness :
    c7Files.map (ingestMergeFile c7Event) = c7Files ∧
    ([⟨"A", true, false, none, none, none⟩] : List ProcFile).map
      (updateProcFile c7Event (extractFileId c7Event) (extractAnalysis c7Event)) =
      [⟨"A", true, false, none, none, none⟩] :=
  ⟨(c7_unknown_id_noop c7Event c7Files c7Event []).2.2.1 (by decide),
   (c7_unknown_id_noop c7Event [] c7Event
      [⟨"A", true, false, none, none, none⟩]).2.2.2.2 (by decide)⟩

/-- Claim C3, amended part: the `!f.processed`-guarded merge of part_002 keeps
terminal records sticky — once a file is processed (terminal for the
processing pass) any further event for it leaves the record unchanged, and
merging the same event twice yields exactly the state of merging it once. -/
theorem c3_guarded_merge_sticky (p : Json) (f : ProcFile) (fs : List ProcFile) :
    (f.processed = true → merge2File p f = f) ∧
    (merge2Files p (merge2Files p fs) = merge2Files p fs) := by
  constructor
  · intro h
    simp [merge2File, h]
  · simp only [merge2Files, List.map_map]
    apply List.map_congr_left
    intro x _
    show merge2File p (merge2File p x) = merge2File p x
    by_cases hb : (jsonEqStr (extractFileId p) x.id && !x.processed) = true
    · have h1 : merge2File p x =
          { x with processed := true,
                   qualityMetrics := qualityMetricsOf (parseAccuracyOf (extractAnalysis p)),
                   analysis := storedAnalysis p (extractAnalysis p),
                   error := nullish (p.get "error") } := by
        rw [merge2File, if_pos hb]
      rw [h1, merge2File, if_neg (by simp)]
    · have h1 : merge2File p x = x := by
        rw [merge2File, if_neg hb]
      rw [h1]
      exact h1

/-- An already-terminal processing record. -/
def c3File : ProcFile := ⟨"A", true, true, none, none, none⟩

/-- A later event for the same id. -/
def c3Payload : Json := .obj [("fileId", .str "A"), ("error", .str "late")]

/-- Witness for C3: the guarded merge leaves the terminal record unchanged. -/
theorem c3_witness : merge2File c3Payload c3File = c3File :=
  (c3_guarded_merge_sticky c3Payload c3File []).1 rfl

/-- A file already terminal with status `"success"`. -/
def c3SuccessFile : IngFile := ⟨"A", true, true, some (.str "success"), none, none⟩

/-- An event reporting the other terminal status for the same id. -/
def c3FailEvent : Json := .obj [("fileId", .str "A"), ("status", .str "failed")]

/-- Claim C3, counterexample: the ingestion merge of `handleIngestion` has no
terminal-status guard — an event reporting a different terminal status
overwrites an already-terminal record instead of leaving it unchanged. -/
theorem c3_counterexample :
    asString c3SuccessFile.ingestionStatus = some "success" ∧
    asString (ingestMergeFile c3FailEvent c3SuccessFile).ingestionStatus = some "failed" ∧
    (some "failed" : Option String) ≠ some "success" :=
  ⟨rfl, rfl, by decide⟩

/-- Claim C2, amended part: in the `processFiles` loop, decode failures are
local — a block whose payload fails to parse changes nothing (no file record,
no published progress) and the loop goes on to process the remaining blocks
exactly as if the bad block had not been there. -/
theorem c2_processing_decode_local (rawData : List Char) (rest : List (List Char))
    (total : Nat) (st : ProcState) (h : jsonParse rawData = none) :
    procRawStep rawData total st = st ∧
    procFrames (rawData :: rest) total st = procFrames rest total st := by
  constructor
  · simp [procRawStep, h]
  · simp [procFrames, List.foldl_cons, procRawStep, h]

/-- Witness for C2 at the unparsable block `"notjson"`. -/
theorem c2_witness :
    jsonParse "notjson".toList = none ∧
    procRawStep "notjson".toList 1 c10State = c10State :=
  ⟨rfl, (c2_processing_decode_local "notjson".toList [] 1 c10State rfl).1⟩

/-- A pending tracked file at the start of an ingestion pass. -/
def c2PendingA : IngFile := ⟨"A", true, true, some (.str "pending"), some .null, none⟩

/-- The ingestion state right after the pass-start reset. -/
def c2Start : IngState := ⟨[c2PendingA], some (.num 0), none⟩

/-- Claim C2, counterexample: in `handleIngestion`, `JSON.parse` of a
malformed `data: ` payload is not caught locally — the exception aborts the
stream loop into the transport-error handler, so the bad frame surfaces a
top-level error and flips the still-pending entity to failed instead of being
skipped. -/
theorem c2_counterexample :
    (ingestLoopGo ["data: notjson\n\n".toList] [] c2Start).apiError =
      some "Unexpected token in JSON" ∧
    statusOf (ingestLoopGo ["data: notjson\n\n".toList] [] c2Start).files "A" =
      some "failed" ∧
    errorOf (ingestLoopGo ["data: notjson\n\n".toList] [] c2Start).files "A" =
      some "Connection error during ingestion." ∧
    statusOf c2Start.files "A" = some "pending" :=
  ⟨rfl, rfl, rfl, rfl⟩

/-- Claim C4, amended part: the transport-error handler of `handleIngestion`
surfaces exactly one top-level error (`apiError` is set once for the whole
failure), keeps the file collection's length, and per entity: every file whose
status is `"pending"` — tracked for the current pass or not — is set to failed
with the generic connection-error message, and every other file is returned
unchanged. -/
theorem c4_catch_marks_all_pending (e : String) (s : IngState) (i : Nat)
    (f : IngFile) :
    ((ingestCatch e s).apiError = some e) ∧
    ((ingestCatch e s).files.length = s.files.length) ∧
    ((ingestCatch e s).files[i]? = (s.files[i]?).map ingestCatchFile) ∧
    (f.statusIs "pending" = false → ingestCatchFile f = f) ∧
    (f.statusIs "pending" = true →
      ingestCatchFile f =
        { f with ingestionStatus := some (Json.str "failed"),
                 error := some (Json.str "Connection error during ingestion.") }) := by
  refine ⟨rfl, by simp [ingestCatch], ?_, ?_, ?_⟩
  · simp [ingestCatch]
  · intro h
    simp [ingestCatchFile, h]
  · intro h
    simp [ingestCatchFile, h]

/-- Witness for C4: a non-pending file is untouched and a pending file is
marked failed by the catch handler. -/
theorem c4_witness :
    ingestCatchFile c3SuccessFile = c3SuccessFile ∧
    ingestCatchFile c2PendingA =
      { c2PendingA with ingestionStatus := some (Json.str "failed"),
                        error := some (Json.str "Connection error during ingestion.") } :=
  ⟨(c4_catch_marks_all_pending "e" ⟨[], none, none⟩ 0 c3SuccessFile).2.2.2.1 rfl,
   (c4_catch_marks_all_pending "e" ⟨[], none, none⟩ 0 c2PendingA).2.2.2.2 rfl⟩

/-- A file left over failed from an earlier pass (tracked for the retry). -/
def c4FileA : IngFile := ⟨"A", true, true, some (.str "failed"), none, some (.str "old")⟩

/-- A file still pending from an earlier pass, not tracked for the retry. -/
def c4FileB : IngFile := ⟨"B", true, true, some (.str "pending"), some .null, none⟩

/-- Claim C4, counterexample: the catch handler marks every pending file, not
only the ones tracked for the current pass.  After a retry pass started for
`"A"` alone, a transport error also flips the untracked still-pending `"B"` to
failed with the connection-error message. -/
theorem c4_counterexample :
    ((["A"] : List String).contains "B" = false) ∧
    statusOf (startPassFiles ["A"] [c4FileA, c4FileB]) "B" = some "pending" ∧
    errorOf (startPassFiles ["A"] [c4FileA, c4FileB]) "B" = none ∧
    statusOf (ingestCatch "network error"
      ⟨startPassFiles ["A"] [c4FileA, c4FileB], some (.num 0), none⟩).files "B" =
      some "failed" ∧
    errorOf (ingestCatch "network error"
      ⟨startPassFiles ["A"] [c4FileA, c4FileB], some (.num 0), none⟩).files "B" =
      some "Connection error during ingestion." :=
  ⟨by decide, rfl, rfl, rfl, rfl⟩

/-- Claim C5, amended part: in the `processFiles` loop, the published
percentage is derived from the updated entity records — changing (or adding)
the payload's `progress` field never changes the published value — while in
the `handleIngestion` loop the value passed to `setProgress` is exactly the
payload's `progress` field. -/
theorem c5_progress_from_counts (payload q : Json) (total : Nat) (st : ProcState)
    (result : Json) (s : IngState) :
    (procPayloadStep (payload.setField "progress" q) total st).progress =
      (procPayloadStep payload total st).progress ∧
    (ingestDataStep result s).progress = result.get "progress" := by
  constructor
  · cases payload with
    | null => rfl
    | bool b => rfl
    | num n => rfl
    | str t => rfl
    | arr xs => rfl
    | obj fs =>
        have hfid : extractFileId ((Json.obj fs).setField "progress" q) =
            extractFileId (Json.obj fs) := by
          rw [extractFileId, extractFileId,
            get_setField _ _ _ _ (by decide : ("progress" : String) ≠ "fileId"),
            get_setField _ _ _ _ (by decide : ("progress" : String) ≠ "file_id")]
        have hana : extractAnalysis ((Json.obj fs).setField "progress" q) =
            extractAnalysis (Json.obj fs) := by
          rw [extractAnalysis, extractAnalysis,
            get_setField _ _ _ _ (by decide : ("progress" : String) ≠ "analysis")]
        by_cases hsk : jsFalsy (extractFileId (Json.obj fs)) = true
        · simp [procPayloadStep, hfid, hsk]
        · simp only [procPayloadStep, hfid, hana]
          rw [if_neg hsk, if_neg hsk]
          simp only []
          have hlen := length_filter_map_congr
            (updateProcFile ((Json.obj fs).setField "progress" q)
              (extractFileId (Json.obj fs)) (extractAnalysis (Json.obj fs)))
            (updateProcFile (Json.obj fs)
              (extractFileId (Json.obj fs)) (extractAnalysis (Json.obj fs)))
            (fun f => f.selected && f.processed)
            (by
              intro x
              by_cases hx : jsonEqStr (extractFileId (Json.obj fs)) x.id = true <;>
                simp [updateProcFile, hx])
            st.files
          rw [hlen]
  · rfl

/-- A complete ingestion frame for `"A"` reporting progress 37. -/
def c5Frame37 : List Char :=
  "data: \x7b\"fileId\":\"A\",\"status\":\"success\",\"progress\":37\x7d\n\n".toList

/-- The same frame with the progress field changed to 99. -/
def c5Frame99 : List Char :=
  "data: \x7b\"fileId\":\"A\",\"status\":\"success\",\"progress\":99\x7d\n\n".toList

/-- Claim C5, counterexample: in `handleIngestion` the published progress is
the event payload's `progress` field itself — two events identical except for
that field publish two different percentages, so the field does determine the
published value. -/
theorem c5_counterexample :
    (ingestLoopGo [c5Frame37] [] c2Start).progress = some (Json.num 37) ∧
    (ingestLoopGo [c5Frame99] [] c2Start).progress = some (Json.num 99) :=
  ⟨rfl, rfl⟩

theorem statusIs_partition (f : IngFile) :
    (f.statusIs "pending").toNat + (f.statusIs "success").toNat +
      (f.statusIs "failed").toNat +
      (!(f.statusIs "pending" || f.statusIs "success" || f.statusIs "failed")).toNat = 1 := by
  rcases hf : f.ingestionStatus with _ | v
  · simp [IngFile.statusIs, jsonEqStr, hf]
  · cases v with
    | str t =>
        by_cases h1 : t = "pending"
        · subst h1
          simp [IngFile.statusIs, jsonEqStr, hf]
        · by_cases h2 : t = "success"
          · subst h2
            simp [IngFile.statusIs, jsonEqStr, hf]
          · by_cases h3 : t = "failed"
            · subst h3
              simp [IngFile.statusIs, jsonEqStr, hf]
            · simp [IngFile.statusIs, jsonEqStr, hf, h1, h2, h3]
    | null => simp [IngFile.statusIs, jsonEqStr, hf]
    | bool b => simp [IngFile.statusIs, jsonEqStr, hf]
    | num n => simp [IngFile.statusIs, jsonEqStr, hf]
    | arr xs => simp [IngFile.statusIs, jsonEqStr, hf]
    | obj ms => simp [IngFile.statusIs, jsonEqStr, hf]

theorem filter_partition (l : List IngFile) :
    (l.filter (fun f => f.statusIs "pending")).length +
      (l.filter (fun f => f.statusIs "success")).length +
      (l.filter (fun f => f.statusIs "failed")).length +
      (l.filter (fun f =>
        !(f.statusIs "pending" || f.statusIs "success" || f.statusIs "failed"))).length =
      l.length := by
  induction l with
  | nil => rfl
  | cons f rest ih =>
      have hp := statusIs_partition f
      simp only [List.filter_cons]
      split_ifs with h1 h2 h3 h4 <;> simp_all <;> omega

/-- Claim C6, amended part: the three rendered counts of part_006 partition
only the tracked files whose status is one of the three known strings —
together with the files whose status was never assigned (or is unrecognised)
they always sum to `totalTracked`, and the claimed three-way equality
`pending + succeeded + failed = totalTracked` holds exactly in the states
where every tracked file carries one of the three statuses. -/
theorem c6_counts_partition (files : List IngFile) :
    (pendingCount files + successCount files + failedCount files +
      unassignedCount files = totalTracked files) ∧
    ((∀ f ∈ selectedFilesOf files,
        (f.statusIs "pending" || f.statusIs "success" || f.statusIs "failed") = true) →
      pendingCount files + successCount files + failedCount files = totalTracked files) := by
  constructor
  · rw [pendingCount, successCount, failedCount, unassignedCount, totalTracked]
    have h := filter_partition (selectedFilesOf files)
    omega
  · intro hall
    have h := filter_partition (selectedFilesOf files)
    have h0 : ((selectedFilesOf files).filter (fun f =>
        !(f.statusIs "pending" || f.statusIs "success" || f.statusIs "failed"))).length = 0 := by
      rw [List.length_eq_zero, List.filter_eq_nil_iff]
      intro a ha
      simp [hall a ha]
    rw [pendingCount, successCount, failedCount, totalTracked]
    omega

/-- A tracked file whose three statuses are all assigned, for the C6 witness. -/
def c6Assigned : List IngFile :=
  [⟨"A", true, true, some (.str "success"), none, none⟩,
   ⟨"B", true, true, some (.str "pending"), none, none⟩]

/-- Witness for C6: with every tracked status assigned, the three counts sum
to the tracked total. -/
theorem c6_witness :
    pendingCount c6Assigned + successCount c6Assigned + failedCount c6Assigned =
      totalTracked c6Assigned :=
  (c6_counts_partition c6Assigned).2 (by decide)

/-- A tracked (selected and processed) file whose `ingestionStatus` was never
assigned. -/
def c6File : IngFile := ⟨"X", true, true, none, none, none⟩

/-- Claim C6, counterexample: a tracked file whose status field was never
assigned is counted by none of the three buckets, so the three counts sum to
0 while `totalTracked` is 1. -/
theorem c6_counterexample :
    pendingCount [c6File] + successCount [c6File] + failedCount [c6File] = 0 ∧
    totalTracked [c6File] = 1 ∧
    pendingCount [c6File] + successCount [c6File] + failedCount [c6File] ≠
      totalTracked [c6File] :=
  ⟨rfl, rfl, by decide⟩

/-- The single tracked file of the C8 run, not yet processed. -/
def c8File : ProcFile := ⟨"A", true, false, none, none, none⟩

/-- The terminal event for that file, as extracted from the stream. -/
def c8Frame : List Char := "\x7b\"fileId\":\"A\"\x7d".toList

/-- Claim C8, code-bug evaluation: with one tracked file whose terminal event
arrives before the stream closes, the in-loop publication reaches 100, every
tracked entity is terminal (processed), yet part_002's end-of-stream
publication computes with the never-incremented `processedCount` and publishes
0 instead of the claimed 100. -/
theorem c8_final_progress_zero :
    (part2RawStep c8Frame 1 (⟨[c8File], 0, 0⟩, 0)).1.progress = 100 ∧
    ((part2Run [c8Frame] 1 ⟨[c8File], 0, 0⟩).files.all (fun f => f.processed)) = true ∧
    (part2Run [c8Frame] 1 ⟨[c8File], 0, 0⟩).progress = 0 ∧
    part2FinalProgress 0 0 = 100 := by
  refine ⟨?_, rfl, ?_, ?_⟩
  · have h : (part2RawStep c8Frame 1 (⟨[c8File], 0, 0⟩, 0)).1.progress =
        ((1 : Nat) : Rat) / ((max 1 1 : Nat) : Rat) * 100 := rfl
    rw [h]
    norm_num
  · have h : (part2Run [c8Frame] 1 ⟨[c8File], 0, 0⟩).progress =
        part2FinalProgress 0 1 := rfl
    rw [h]
    simp only [part2FinalProgress]
    norm_num
  · simp only [part2FinalProgress]
    norm_num
